import Mathlib

/-!
# Verification of the CubitsAtWork core

Shallow embedding of the two core pieces of the repository:

* the **Measurement Distribution Synthesizer** — `handleRunSimulation` in
  `src/frontend/src/components/SimulationResults.tsx`;
* the **Generation Lifecycle Orchestrator** — the `Layout` component
  (state hooks and handlers) shipped in `src/backend/Dockerfile`
  (which embeds `src/components/Layout.tsx`);
* the **Diagram Scaling Helper** — the zoom computation in
  `src/frontend/src/components/CircuitImporter.tsx`.

Modelling conventions:

* JavaScript numbers that stay non-negative integers are modelled as `ℕ`.
  A JS number that may be `NaN` is modelled as `Option ℕ` (`none` = `NaN`);
  arithmetic on it propagates `none` exactly as JS propagates `NaN`, and
  `NaN > 0` is `false`.
* The floating-point expressions of the source evaluate, at every point a
  claim depends on, to the same floor as exact rational arithmetic, so
  `Math.floor(x * 0.48)` is modelled as `x * 48 / 100` in `ℕ`, and
  `Math.floor(r * (0.1 + (i % 3) * 0.2 * ((c % 10) / 10)))` as
  `r * (10 + 2 * (c % 10) * (i % 3)) / 100`.  The properties proved below
  (conservation, key shape, determinism) are insensitive to the final ulp
  of these products because every allocation is clamped by the remaining
  shots and the leftover is assigned wholesale.
* JS objects used as string-keyed dictionaries are modelled as association
  lists with replace-or-append assignment (`setCount`), preserving
  insertion order like a JS object with string keys does.
-/

/-! ## JS number and dictionary primitives -/

/-- A JS number that may be `NaN`: `none` models `NaN`. -/
abbrev JsNum := Option ℕ

/-- JS `a + b` with `NaN` propagation. -/
def jsAdd : JsNum → JsNum → JsNum
  | some a, some b => some (a + b)
  | _, _ => none

/-- JS `a - b` with `NaN` propagation (used only where the JS value is a
non-negative integer, so `ℕ` subtraction is exact). -/
def jsSub : JsNum → JsNum → JsNum
  | some a, some b => some (a - b)
  | _, _ => none

/-- JS `Math.min(a, b)` with `NaN` propagation. -/
def jsMin : JsNum → JsNum → JsNum
  | some a, some b => some (min a b)
  | _, _ => none

/-- JS `x > 0`; `NaN > 0` is `false`. -/
def jsGtZero : JsNum → Bool
  | some a => decide (0 < a)
  | none => false

/-- JS `s.charCodeAt(0)`: `NaN` on the empty string. -/
def charCodeAt0 (s : String) : JsNum :=
  match s.data with
  | [] => none
  | c :: _ => some c.toNat

/-- JS object assignment `m[k] = v`: replace an existing binding in place,
else append (insertion order preserved, as for JS string keys). -/
def setCount : List (String × JsNum) → String → JsNum → List (String × JsNum)
  | [], k, v => [(k, v)]
  | (k', v') :: rest, k, v =>
    if k' = k then (k, v) :: rest else (k', v') :: setCount rest k v

/-- JS object read `m[k]`; a missing key is `undefined`, which behaves as
`NaN` in the arithmetic contexts the source uses it in. -/
def getCount (m : List (String × JsNum)) (k : String) : JsNum :=
  match m.find? (fun p => p.1 = k) with
  | some p => p.2
  | none => none

/-- Sum of the values of a counts dictionary (`NaN` absorbing). -/
def sumValues : List (String × JsNum) → JsNum
  | [] => some 0
  | p :: rest => jsAdd p.2 (sumValues rest)

/-! ## Bitstring helpers (JS `toString(2)`, `padStart`, `repeat`, `split`/`join`) -/

/-- JS `'c'.repeat(n)` as a string. -/
def repeatChar (c : Char) (n : ℕ) : String :=
  String.mk (List.replicate n c)

/-- Binary digits of a positive number, most significant first
(the digit list of JS `i.toString(2)` for `i ≠ 0`; empty for `0`). -/
def binDigits (n : ℕ) : List Char :=
  if h : n = 0 then []
  else binDigits (n / 2) ++ [if n % 2 = 1 then '1' else '0']
decreasing_by exact Nat.div_lt_self (Nat.pos_of_ne_zero h) (by norm_num)

/-- JS `i.toString(2)`. -/
def binString (n : ℕ) : String :=
  if n = 0 then "0" else String.mk (binDigits n)

/-- JS `s.padStart(n, '0')`. -/
def padStart (s : String) (n : ℕ) : String :=
  String.mk (List.replicate (n - s.length) '0' ++ s.data)

/-- JS `'0'.repeat(n).split('')` with `[i] = '1'` then `join('')`:
the length-`n` bitstring with a single `1` at (left-based) index `i`. -/
def oneHot (n i : ℕ) : String :=
  String.mk ((List.replicate n '0').set i '1')

/-! ## The Measurement Distribution Synthesizer

Embedding of the body of `handleRunSimulation`
(`src/frontend/src/components/SimulationResults.tsx`, lines 44–114).
`totalShots` is the local constant `1024` of the source. -/

/-- The simulation-results object built at lines 104–114 of
`SimulationResults.tsx`.  `probabilities` maps each outcome to
`count / totalShots` as an exact rational (`none` for a `NaN` count). -/
structure SimResults where
  counts : List (String × JsNum)
  numQubits : ℕ
  totalShots : ℕ
  probabilities : List (String × Option ℚ)
deriving Repr, DecidableEq

/-- One iteration of the unrecognized-type loop
(`SimulationResults.tsx` lines 87–94):
`count = Math.floor(remainingShots * (0.1 + (i % 3) * 0.2 * factor))` with
`factor = (circuitType.charCodeAt(0) % 10) / 10`, then
`counts[stateKey] = Math.min(count, remainingShots)` and
`remainingShots -= counts[stateKey]`.  `code` is `charCodeAt(0)`. -/
def defaultStep (numQubits : ℕ) (code : JsNum)
    (acc : List (String × JsNum) × JsNum) (i : ℕ) :
    List (String × JsNum) × JsNum :=
  let stateKey := padStart (binString i) numQubits
  let count : JsNum :=
    match acc.2, code with
    | some r, some c => some (r * (10 + 2 * (c % 10) * (i % 3)) / 100)
    | _, _ => none
  let stored := jsMin count acc.2
  (setCount acc.1 stateKey stored, jsSub acc.2 stored)

/-- One iteration of the `w_state` loop (`SimulationResults.tsx`
lines 66–79): the outcome with the `1` at left index `i` gets `baseCount`
for `i < numQubits - 1`, and the running remainder for the last `i`. -/
def wStep (numQubits baseCount : ℕ)
    (acc : List (String × JsNum) × ℕ) (i : ℕ) :
    List (String × JsNum) × ℕ :=
  let state := oneHot numQubits i
  if i < numQubits - 1 then
    (setCount acc.1 state (some baseCount), acc.2 - baseCount)
  else
    (setCount acc.1 state (some acc.2), acc.2)

/-- The counts dictionary built by `handleRunSimulation`
(`SimulationResults.tsx` lines 45–101), branch by branch. -/
def synthCounts (circuitType : String) (numQubits : ℕ) :
    List (String × JsNum) :=
  let totalShots := 1024
  if circuitType = "bell_state" then
    -- counts['00'] = Math.floor(totalShots * 0.48); counts['11'] = totalShots - counts['00']
    let c := setCount [] "00" (some (totalShots * 48 / 100))
    setCount c "11" (jsSub (some totalShots) (getCount c "00"))
  else if circuitType = "ghz_state" then
    let zeros := repeatChar '0' numQubits
    let ones := repeatChar '1' numQubits
    let c := setCount [] zeros (some (totalShots * 48 / 100))
    setCount c ones (jsSub (some totalShots) (getCount c zeros))
  else if circuitType = "w_state" then
    let baseCount := totalShots / numQubits
    ((List.range numQubits).foldl (wStep numQubits baseCount) ([], totalShots)).1
  else
    let maxStates := min (2 ^ numQubits) 16
    let code := charCodeAt0 circuitType
    let loop :=
      (List.range (maxStates - 1)).foldl (defaultStep numQubits code)
        ([], some totalShots)
    -- if (remainingShots > 0) counts[lastStateKey] = remainingShots
    if jsGtZero loop.2 then
      setCount loop.1 (padStart (binString (maxStates - 1)) numQubits) loop.2
    else loop.1

/-- The Synthesizer: `handleRunSimulation`'s deterministic result object for
a given `circuit_type` and resolved qubit count
(`SimulationResults.tsx` lines 44–114). -/
def synthesize (circuitType : String) (numQubits : ℕ) : SimResults :=
  let totalShots := 1024
  let counts := synthCounts circuitType numQubits
  { counts := counts
    numQubits := numQubits
    totalShots := totalShots
    probabilities :=
      counts.map (fun p => (p.1, p.2.map (fun c => (c : ℚ) / totalShots))) }

/-- `SimulationResults.tsx` lines 40–42:
`numQubits = circuitData.num_qubits || circuitData.parameters?.num_qubits || 3`.
JS `||` takes the right operand when the left is falsy; for numbers the falsy
values are `0` (and `NaN`/`undefined`, modelled by `none`).  Negative numbers
are truthy and pass through. -/
def resolveNumQubits (numQubits paramNumQubits : Option Int) : Int :=
  match numQubits with
  | some n => if n ≠ 0 then n else
      match paramNumQubits with
      | some m => if m ≠ 0 then m else 3
      | none => 3
  | none =>
      match paramNumQubits with
      | some m => if m ≠ 0 then m else 3
      | none => 3

/-! ## The Generation Lifecycle Orchestrator

Embedding of the `Layout` component's state hooks and handlers
(`src/backend/Dockerfile`, embedded `src/components/Layout.tsx`).

The orchestrator is a single-threaded event system: every state change
happens inside one of the handlers below, driven by user clicks, by the
resolution of an in-flight generation request (success or failure), or by
a `setTimeout` settle callback.  We model it as a total step function over
an event alphabet.  Events model *handler invocations*: the UI disables
some controls while a generation is in flight, but the source's handlers
themselves perform no guarding, and a response of a superseded request
still invokes its success handler (the component that issued it merely
unmounts; the callbacks it was handed are the live `Layout` handlers), so
racy sequences of handler invocations are part of the orchestrator's
behaviour.  Settle timeouts all share the same 500 ms delay, so they fire
in FIFO order; `timers` is that queue, recording which channel's handler
scheduled each pending callback. -/

/-- The four generation channels (`activeTab` values
`'text' | 'template' | 'image' | 'file'`). -/
inductive Channel
  | text
  | template
  | image
  | file
deriving DecidableEq, Repr

/-- A committed generation result (`CircuitResponse`).  Its payload is
opaque to the orchestrator; only its identity matters here. -/
structure Artifact where
  id : ℕ
deriving DecidableEq, Repr

/-- The `Layout` component's state (`Layout.tsx` lines 38–52), together
with `circuitData` (owned by `App`, written through `setCircuitData`),
the staging ref `pendingDataRef`, and the queue of scheduled settle
timeouts.  `simulationResults` holds the measurement table (opaque). -/
structure OrchState where
  circuitData : Option Artifact
  pendingData : Option Artifact
  simulationResults : Option ℕ
  activeTab : Channel
  error : Option String
  resetCounter : ℕ
  isNaturalLanguageGenerating : Bool
  isTemplateGenerating : Bool
  isImageGenerating : Bool
  isFileGenerating : Bool
  showResults : Bool
  timers : List Channel
deriving DecidableEq, Repr

/-- The per-channel in-flight flag. -/
def isGenOf (s : OrchState) : Channel → Bool
  | .text => s.isNaturalLanguageGenerating
  | .template => s.isTemplateGenerating
  | .image => s.isImageGenerating
  | .file => s.isFileGenerating

/-- Write the per-channel in-flight flag. -/
def setGenOf (s : OrchState) : Channel → Bool → OrchState
  | .text, b => { s with isNaturalLanguageGenerating := b }
  | .template, b => { s with isTemplateGenerating := b }
  | .image, b => { s with isImageGenerating := b }
  | .file, b => { s with isFileGenerating := b }

/-- `Layout.tsx` lines 180–181: `isGenerating` is the disjunction of the
four per-channel flags. -/
def isGenerating (s : OrchState) : Bool :=
  s.isNaturalLanguageGenerating || s.isTemplateGenerating ||
    s.isImageGenerating || s.isFileGenerating

/-- `handleStart…Generation(channel)` (`Layout.tsx` lines 55–59, 79–83,
103–107, 127–131): mark the channel generating, hide the Result Views,
clear the measurement table.  Note: `circuitData` and `pendingDataRef`
are *not* touched. -/
def handleStartGeneration (c : Channel) (s : OrchState) : OrchState :=
  { setGenOf s c true with showResults := false, simulationResults := none }

/-- `handle…Generated(data)` (`Layout.tsx` lines 61–71, 85–95, 109–119,
133–143), the part before the timeout: stage the artifact in
`pendingDataRef` and schedule the 500 ms settle callback. -/
def handleGenerated (c : Channel) (a : Artifact) (s : OrchState) : OrchState :=
  { s with pendingData := some a, timers := s.timers ++ [c] }

/-- The settle callback body (`Layout.tsx` lines 64–70 and its three
clones): clear the measurement table, commit whatever `pendingDataRef`
holds *at firing time*, clear the error, clear the scheduling channel's
flag, reveal the Result Views.  Fires the oldest pending timeout; with no
pending timeout it is a no-op (JS schedules none). -/
def fireSettle (s : OrchState) : OrchState :=
  match s.timers with
  | [] => s
  | c :: rest =>
    setGenOf
      { s with simulationResults := none, circuitData := s.pendingData,
               error := none, showResults := true, timers := rest } c false

/-- `handle…GenerationFailed(errorMessage)` (`Layout.tsx` lines 73–76 and
clones): drop the channel's flag and record the message. -/
def handleGenerationFailed (c : Channel) (msg : String) (s : OrchState) :
    OrchState :=
  { setGenOf s c false with error := some msg }

/-- `handleResetCircuit` (`Layout.tsx` lines 151–167): clear the committed
artifact, the staging ref, the measurement table, the error and the
Result Views; bump `resetCounter` (remounting every adapter); drop all
four flags.  Scheduled settle timeouts are *not* cancelled. -/
def handleResetCircuit (s : OrchState) : OrchState :=
  { s with circuitData := none, pendingData := none,
           simulationResults := none, error := none, showResults := false,
           resetCounter := s.resetCounter + 1,
           isNaturalLanguageGenerating := false,
           isTemplateGenerating := false,
           isImageGenerating := false,
           isFileGenerating := false }

/-- The `useEffect` on `[activeTab]` (`Layout.tsx` lines 170–177): runs
after the active tab actually changes; clears the measurement table, all
four flags and the error. -/
def tabEffect (s : OrchState) : OrchState :=
  { s with simulationResults := none, error := none,
           isNaturalLanguageGenerating := false,
           isTemplateGenerating := false,
           isImageGenerating := false,
           isFileGenerating := false }

/-- A tab button click (`Layout.tsx` lines 189–228): `setActiveTab(c)`
then `handleResetCircuit()`; if the tab actually changed, the
`[activeTab]` effect then runs. -/
def selectTab (c : Channel) (s : OrchState) : OrchState :=
  let s' := handleResetCircuit { s with activeTab := c }
  if c ≠ s.activeTab then tabEffect s' else s'

/-- `SimulationResults`' `setResults(simulationResults)`: the measurement
view writes a freshly synthesized table; `handleRunSimulation` returns
early when no artifact is committed. -/
def runSimulation (t : ℕ) (s : OrchState) : OrchState :=
  if s.circuitData.isSome then { s with simulationResults := some t } else s

/-- Orchestrator events: one constructor per handler invocation. -/
inductive Event
  | selectTab (c : Channel)
  | startGeneration (c : Channel)
  | generated (c : Channel) (a : Artifact)
  | generationFailed (c : Channel) (msg : String)
  | resetCircuit
  | settle
  | runSimulation (t : ℕ)
deriving DecidableEq, Repr

/-- The orchestrator's step function. -/
def step (s : OrchState) : Event → OrchState
  | .selectTab c => selectTab c s
  | .startGeneration c => handleStartGeneration c s
  | .generated c a => handleGenerated c a s
  | .generationFailed c msg => handleGenerationFailed c msg s
  | .resetCircuit => handleResetCircuit s
  | .settle => fireSettle s
  | .runSimulation t => runSimulation t s

/-- Run a list of events from a state. -/
def run (s : OrchState) (es : List Event) : OrchState :=
  es.foldl step s

/-- The initial `Layout` state (`Layout.tsx` lines 39–52; `circuitData`
starts `null` in `App`). -/
def init : OrchState :=
  { circuitData := none, pendingData := none, simulationResults := none,
    activeTab := .text, error := none, resetCounter := 0,
    isNaturalLanguageGenerating := false, isTemplateGenerating := false,
    isImageGenerating := false, isFileGenerating := false,
    showResults := false, timers := [] }

/-- A state the orchestrator can actually enter. -/
def Reachable (s : OrchState) : Prop :=
  ∃ es : List Event, run init es = s

/-- The Result Views mount condition (`Layout.tsx` line 283):
`circuitData && showResults && !isGenerating`. -/
def resultViewsShown (s : OrchState) : Bool :=
  s.circuitData.isSome && s.showResults && !isGenerating s

/-! ## The Diagram Scaling Helper

Embedding of the zoom computation of `CircuitImporter.tsx`. -/

/-- `CircuitImporter.tsx` lines 320–328: when both dimensions are known,
`widthRatio = containerWidth / imageWidth` and the applied zoom is
`widthRatio < 1 ? widthRatio : 1`. -/
def computeOptimalZoom (intrinsicWidth containerWidth : ℚ) : ℚ :=
  let widthRatio := containerWidth / intrinsicWidth
  if widthRatio < 1 then widthRatio else 1

/-- The zoom-related component state: the automatically computed
`optimalZoom` and the currently applied `zoomLevel`. -/
structure ZoomState where
  optimalZoom : ℚ
  zoomLevel : ℚ
deriving DecidableEq, Repr

/-- The `[imageDimensions, containerDimensions]` effect
(`CircuitImporter.tsx` lines 320–328): recompute and auto-apply the
optimal zoom (only when both widths are positive). -/
def applyDimensions (iw cw : ℚ) (z : ZoomState) : ZoomState :=
  if 0 < iw ∧ 0 < cw then
    let newZoom := computeOptimalZoom iw cw
    { optimalZoom := newZoom, zoomLevel := newZoom }
  else z

/-- `handleFitToContainer` (`CircuitImporter.tsx` lines 370–372):
reapply the computed optimal zoom. -/
def handleFitToContainer (z : ZoomState) : ZoomState :=
  { z with zoomLevel := z.optimalZoom }

/-! ## Dictionary lemmas -/

lemma jsAdd_some_zero (x : JsNum) : jsAdd x (some 0) = x := by
  cases x <;> simp [jsAdd]

lemma jsAdd_jsAdd_some (x : JsNum) (a b : ℕ) :
    jsAdd (jsAdd x (some a)) (some b) = jsAdd x (some (a + b)) := by
  cases x <;> simp [jsAdd, Nat.add_assoc]

/-- Assigning a fresh key appends the binding. -/
lemma setCount_eq_append {m : List (String × JsNum)} {k : String} (v : JsNum)
    (h : k ∉ m.map Prod.fst) : setCount m k v = m ++ [(k, v)] := by
  induction m with
  | nil => rfl
  | cons p rest ih =>
    simp only [List.map_cons, List.mem_cons, not_or] at h
    obtain ⟨h1, h2⟩ := h
    obtain ⟨k', v'⟩ := p
    simp only [setCount, List.cons_append]
    rw [if_neg (by simpa using Ne.symm h1), ih h2]

lemma jsAdd_assoc (x y z : JsNum) :
    jsAdd (jsAdd x y) z = jsAdd x (jsAdd y z) := by
  cases x <;> cases y <;> cases z <;> simp [jsAdd, Nat.add_assoc]

lemma sumValues_append (a b : List (String × JsNum)) :
    sumValues (a ++ b) = jsAdd (sumValues a) (sumValues b) := by
  induction a with
  | nil =>
    cases hb : sumValues b <;> simp [sumValues, jsAdd, hb]
  | cons p rest ih =>
    simp only [List.cons_append, sumValues, jsAdd_assoc, List.append_eq, ih]

lemma sumValues_singleton (k : String) (v : JsNum) :
    sumValues [(k, v)] = v := by
  cases v <;> simp [sumValues, jsAdd]

lemma sumValues_append_single (a : List (String × JsNum)) (k : String)
    (v : ℕ) : sumValues (a ++ [(k, some v)]) = jsAdd (sumValues a) (some v) := by
  rw [sumValues_append, sumValues_singleton]

/-! ## Bitstring decode lemmas -/

/-- The number a list of `'0'`/`'1'` characters denotes, most significant
first. -/
def bitsVal (l : List Char) : ℕ :=
  l.foldl (fun a c => 2 * a + (if c = '1' then 1 else 0)) 0

lemma lastDigit_val (n : ℕ) :
    (if (if n % 2 = 1 then '1' else '0') = '1' then 1 else 0) = n % 2 := by
  by_cases h2 : n % 2 = 1
  · simp [h2]
  · have : n % 2 = 0 := by omega
    rw [this]
    simp only [if_neg (by norm_num : ¬(0 = 1))]
    rw [if_neg (by decide : ¬('0' = '1'))]

lemma bitsVal_foldl_binDigits (n : ℕ) : ∀ a : ℕ,
    (binDigits n).foldl (fun a c => 2 * a + (if c = '1' then 1 else 0)) a =
      a * 2 ^ (binDigits n).length + n := by
  induction n using Nat.strong_induction_on with
  | _ n ih =>
    intro a
    by_cases h : n = 0
    · subst h
      simp [binDigits]
    · rw [binDigits, dif_neg h, List.foldl_append, List.length_append,
        ih (n / 2) (Nat.div_lt_self (Nat.pos_of_ne_zero h) (by norm_num))]
      simp only [List.foldl_cons, List.foldl_nil, List.length_cons,
        List.length_nil]
      rw [lastDigit_val, pow_succ]
      have := Nat.div_add_mod n 2
      ring_nf
      omega

lemma bitsVal_binDigits (n : ℕ) : bitsVal (binDigits n) = n := by
  have := bitsVal_foldl_binDigits n 0
  simpa [bitsVal] using this

lemma bitsVal_replicate_zero_append (k : ℕ) (l : List Char) :
    bitsVal (List.replicate k '0' ++ l) = bitsVal l := by
  have hz : ∀ a : ℕ, (List.replicate k '0').foldl
      (fun a c => 2 * a + (if c = '1' then 1 else 0)) a = a * 2 ^ k := by
    induction k with
    | zero => intro a; simp
    | succ k ih =>
      intro a
      rw [List.replicate_succ, List.foldl_cons, ih, pow_succ]
      rw [if_neg (by decide : ¬('0' = '1'))]
      ring
  unfold bitsVal
  rw [List.foldl_append, hz 0]
  simp

/-- Decoding a zero-padded binary key recovers the encoded number. -/
lemma bitsVal_padStart_binString (i n : ℕ) :
    bitsVal (padStart (binString i) n).data = i := by
  show bitsVal (List.replicate (n - (binString i).length) '0' ++
    (binString i).data) = i
  rw [bitsVal_replicate_zero_append]
  unfold binString
  by_cases h : i = 0
  · subst h
    rfl
  · rw [if_neg h]
    show bitsVal (binDigits i) = i
    exact bitsVal_binDigits i

/-- Binary keys are injective after padding. -/
lemma padStart_binString_injective (n : ℕ) :
    Function.Injective (fun i => padStart (binString i) n) := by
  intro i j hij
  have hi := bitsVal_padStart_binString i n
  have hj := bitsVal_padStart_binString j n
  simp only at hij
  rw [hij] at hi
  exact hi.symm.trans hj

/-! ## Key length lemmas -/

lemma length_binDigits_le {i k : ℕ} (h : i < 2 ^ k) :
    (binDigits i).length ≤ k := by
  induction i using Nat.strong_induction_on generalizing k with
  | _ i ih =>
    by_cases hi : i = 0
    · subst hi; simp [binDigits]
    · have hk : 1 ≤ k := by
        by_contra hk
        push_neg at hk
        interval_cases k
        simp at h
        omega
      rw [binDigits, dif_neg hi, List.length_append]
      have hdiv : i / 2 < 2 ^ (k - 1) := by
        have h2 : (0:ℕ) < 2 := by norm_num
        rw [Nat.div_lt_iff_lt_mul h2]
        calc i < 2 ^ k := h
          _ = 2 ^ (k - 1) * 2 := by
            rw [← pow_succ]
            congr 1
            omega
      have := ih (i / 2) (Nat.div_lt_self (Nat.pos_of_ne_zero hi) (by norm_num)) hdiv
      simp only [List.length_cons, List.length_nil]
      omega

lemma length_padStart (s : String) (n : ℕ) :
    (padStart s n).length = max n s.length := by
  show (List.replicate (n - s.length) '0' ++ s.data).length = max n s.length
  rw [List.length_append, List.length_replicate]
  show n - s.length + s.data.length = max n s.length
  have : s.data.length = s.length := rfl
  omega

lemma length_padStart_binString {i n : ℕ} (hn : 1 ≤ n) (hi : i < 2 ^ n) :
    (padStart (binString i) n).length = n := by
  rw [length_padStart]
  have hlen : (binString i).length ≤ n := by
    unfold binString
    by_cases h : i = 0
    · subst h
      simpa using hn
    · rw [if_neg h]
      show (binDigits i).length ≤ n
      exact length_binDigits_le hi
  omega

/-! ## One-hot key lemmas (`w_state` branch) -/

lemma oneHot_length (n i : ℕ) : (oneHot n i).length = n := by
  show ((List.replicate n '0').set i '1').length = n
  rw [List.length_set, List.length_replicate]

lemma oneHot_injOn {n i j : ℕ} (hi : i < n) (hj : j < n)
    (h : oneHot n i = oneHot n j) : i = j := by
  by_contra hne
  have hdata : (List.replicate n '0').set i '1' =
      (List.replicate n '0').set j '1' := congrArg String.data h
  have hq := congrArg (fun l => l[i]?) hdata
  simp only at hq
  rw [List.getElem?_set_self (by rw [List.length_replicate]; exact hi),
    List.getElem?_set_ne (fun hji => hne hji.symm),
    List.getElem?_eq_getElem (by rw [List.length_replicate]; exact hi)] at hq
  simp [List.getElem_replicate] at hq

/-! ## Closed form of the `w_state` loop -/

lemma w_loop_partial (n base R0 : ℕ) :
    ∀ t, t ≤ n - 1 →
      (List.range t).foldl (wStep n base) ([], R0) =
        ((List.range t).map (fun i => (oneHot n i, some base)), R0 - t * base) := by
  intro t
  induction t with
  | zero => intro _; simp
  | succ t ih =>
    intro ht
    rw [List.range_succ, List.foldl_append, ih (by omega), List.foldl_cons,
      List.foldl_nil]
    unfold wStep
    rw [if_pos (by omega : t < n - 1)]
    have hfresh : oneHot n t ∉
        ((List.range t).map (fun i => (oneHot n i, some base))).map Prod.fst := by
      simp only [List.map_map]
      intro hmem
      obtain ⟨i, hi, hoi⟩ := List.mem_map.mp hmem
      have hirange := List.mem_range.mp hi
      have : i = t := oneHot_injOn (by omega) (by omega) hoi
      omega
    rw [setCount_eq_append _ hfresh]
    congr 1
    · rw [List.map_append]
      rfl
    · rw [Nat.succ_mul, ← Nat.sub_sub]

lemma w_loop_full (n base R0 : ℕ) (hn : 1 ≤ n) :
    (List.range n).foldl (wStep n base) ([], R0) =
      ((List.range (n - 1)).map (fun i => (oneHot n i, some base)) ++
          [(oneHot n (n - 1), some (R0 - (n - 1) * base))],
        R0 - (n - 1) * base) := by
  have hsplit : List.range n = List.range (n - 1) ++ [n - 1] := by
    conv_lhs => rw [show n = (n - 1) + 1 by omega]
    rw [List.range_succ]
  rw [hsplit, List.foldl_append, w_loop_partial n base R0 (n - 1) le_rfl,
    List.foldl_cons, List.foldl_nil]
  unfold wStep
  rw [if_neg (by omega : ¬(n - 1 < n - 1))]
  have hfresh : oneHot n (n - 1) ∉
      ((List.range (n - 1)).map (fun i => (oneHot n i, some base))).map
        Prod.fst := by
    simp only [List.map_map]
    intro hmem
    obtain ⟨i, hi, hoi⟩ := List.mem_map.mp hmem
    have hirange := List.mem_range.mp hi
    have : i = n - 1 := oneHot_injOn (by omega) (by omega) hoi
    omega
  rw [setCount_eq_append _ hfresh]

/-! ## Invariant of the unrecognized-type loop -/

/-- With a defined character code, the unrecognized-type loop keeps the
remaining-shots counter a defined integer that never grows, appends every
binding at a fresh binary key, and conserves allocated + remaining. -/
lemma default_loop_spec (n cc : ℕ) :
    ∀ (is : List ℕ) (c0 : List (String × JsNum)) (r0 : ℕ),
      (∀ i ∈ is, padStart (binString i) n ∉ c0.map Prod.fst) →
      is.Pairwise (· ≠ ·) →
      ∃ (c1 : List (String × JsNum)) (r1 : ℕ),
        is.foldl (defaultStep n (some cc)) (c0, some r0) = (c1, some r1) ∧
        r1 ≤ r0 ∧
        sumValues c1 = jsAdd (sumValues c0) (some (r0 - r1)) ∧
        c1.map Prod.fst =
          c0.map Prod.fst ++ is.map (fun i => padStart (binString i) n) := by
  intro is
  induction is with
  | nil =>
    intro c0 r0 _ _
    exact ⟨c0, r0, rfl, le_rfl, by rw [Nat.sub_self, jsAdd_some_zero], by simp⟩
  | cons i rest ih =>
    intro c0 r0 hfresh hpw
    rw [List.foldl_cons]
    have hstep : defaultStep n (some cc) (c0, some r0) i =
        (setCount c0 (padStart (binString i) n)
            (some (min (r0 * (10 + 2 * (cc % 10) * (i % 3)) / 100) r0)),
          some (r0 - min (r0 * (10 + 2 * (cc % 10) * (i % 3)) / 100) r0)) := by
      simp [defaultStep, jsMin, jsSub]
    rw [hstep]
    set m := min (r0 * (10 + 2 * (cc % 10) * (i % 3)) / 100) r0 with hm
    have hmle : m ≤ r0 := min_le_right _ _
    have happ : setCount c0 (padStart (binString i) n) (some m) =
        c0 ++ [(padStart (binString i) n, some m)] :=
      setCount_eq_append _ (hfresh i (by simp))
    rw [happ]
    obtain ⟨hhead, htail⟩ := List.pairwise_cons.mp hpw
    have hfresh' : ∀ j ∈ rest, padStart (binString j) n ∉
        (c0 ++ [(padStart (binString i) n, some m)]).map Prod.fst := by
      intro j hj
      rw [List.map_append]
      intro hmem
      rcases List.mem_append.mp hmem with hc | hc
      · exact hfresh j (List.mem_cons_of_mem _ hj) hc
      · simp only [List.map_cons, List.map_nil, List.mem_singleton] at hc
        exact hhead j hj (padStart_binString_injective n hc).symm
    obtain ⟨c1, r1, heq, hle, hsum, hkeys⟩ := ih _ (r0 - m) hfresh' htail
    refine ⟨c1, r1, heq, by omega, ?_, ?_⟩
    · rw [hsum, sumValues_append_single, jsAdd_jsAdd_some]
      congr 2
      omega
    · rw [hkeys, List.map_append, List.append_assoc]
      rfl

/-! ## Branch-level characterizations of `synthCounts` -/

lemma getCount_cons_self (k : String) (v : JsNum)
    (rest : List (String × JsNum)) : getCount ((k, v) :: rest) k = v := by
  rw [getCount, List.find?_cons_of_pos _ (by simp)]

lemma synthCounts_bell (n : ℕ) :
    synthCounts "bell_state" n = [("00", some 491), ("11", some 533)] := rfl

lemma repeatChar_one_ne_zero {n : ℕ} (hn : 1 ≤ n) :
    repeatChar '1' n ≠ repeatChar '0' n := by
  intro h
  have hq := congrArg (fun s => s.data[0]?) h
  simp only [repeatChar, List.getElem?_replicate] at hq
  rw [if_pos (by omega), if_pos (by omega)] at hq
  exact absurd (Option.some.injEq _ _ ▸ hq) (by decide)

lemma synthCounts_ghz {n : ℕ} (hn : 1 ≤ n) :
    synthCounts "ghz_state" n =
      [(repeatChar '0' n, some 491), (repeatChar '1' n, some 533)] := by
  have h0 : synthCounts "ghz_state" n =
      setCount [(repeatChar '0' n, some 491)] (repeatChar '1' n)
        (jsSub (some 1024)
          (getCount [(repeatChar '0' n, some 491)] (repeatChar '0' n))) := rfl
  rw [h0, getCount_cons_self,
    setCount_eq_append _ (by
      simp only [List.map_cons, List.map_nil, List.mem_singleton]
      exact repeatChar_one_ne_zero hn)]
  rfl

lemma synthCounts_w (n : ℕ) :
    synthCounts "w_state" n =
      ((List.range n).foldl (wStep n (1024 / n)) ([], 1024)).1 := by
  unfold synthCounts
  rw [if_neg (by decide), if_neg (by decide), if_pos rfl]

lemma synthCounts_w_closed {n : ℕ} (hn : 1 ≤ n) :
    synthCounts "w_state" n =
      (List.range (n - 1)).map (fun i => (oneHot n i, some (1024 / n))) ++
        [(oneHot n (n - 1), some (1024 - (n - 1) * (1024 / n)))] := by
  rw [synthCounts_w, w_loop_full n (1024 / n) 1024 hn]

lemma synthCounts_default (ct : String) (n : ℕ)
    (h1 : ct ≠ "bell_state") (h2 : ct ≠ "ghz_state") (h3 : ct ≠ "w_state") :
    synthCounts ct n =
      (let maxStates := min (2 ^ n) 16
       let loop := (List.range (maxStates - 1)).foldl
          (defaultStep n (charCodeAt0 ct)) ([], some 1024)
       if jsGtZero loop.2 then
         setCount loop.1 (padStart (binString (maxStates - 1)) n) loop.2
       else loop.1) := by
  unfold synthCounts
  rw [if_neg h1, if_neg h2, if_neg h3]

lemma charCodeAt0_eq_some {ct : String} (h : ct ≠ "") :
    ∃ cc, charCodeAt0 ct = some cc := by
  obtain ⟨data⟩ := ct
  cases data with
  | nil => exact absurd rfl h
  | cons c tail => exact ⟨c.toNat, rfl⟩

lemma sumValues_map_const (l : List ℕ) (f : ℕ → String) (b : ℕ) :
    sumValues (l.map (fun i => (f i, some b))) = some (l.length * b) := by
  induction l with
  | nil => simp [sumValues]
  | cons i rest ih =>
    simp only [List.map_cons, sumValues, ih, jsAdd, List.length_cons]
    rw [Nat.succ_mul]
    ring_nf

/-! ## Conservation, branch by branch -/

lemma sum_w {n : ℕ} (hn : 1 ≤ n) :
    sumValues (synthCounts "w_state" n) = some 1024 := by
  rw [synthCounts_w_closed hn, sumValues_append_single,
    sumValues_map_const, List.length_range]
  have hle : (n - 1) * (1024 / n) ≤ 1024 := by
    calc (n - 1) * (1024 / n) ≤ n * (1024 / n) :=
          Nat.mul_le_mul_right _ (by omega)
      _ ≤ 1024 := by rw [mul_comm]; exact Nat.div_mul_le_self 1024 n
  simp only [jsAdd]
  congr 1
  omega

lemma sum_default {ct : String} {n : ℕ} (hct : ct ≠ "")
    (h1 : ct ≠ "bell_state") (h2 : ct ≠ "ghz_state") (h3 : ct ≠ "w_state") :
    sumValues (synthCounts ct n) = some 1024 := by
  obtain ⟨cc, hcc⟩ := charCodeAt0_eq_some hct
  rw [synthCounts_default ct n h1 h2 h3]
  simp only [hcc]
  obtain ⟨c1, r1, heq, hle, hsum, hkeys⟩ :=
    default_loop_spec n cc (List.range (min (2 ^ n) 16 - 1)) [] 1024
      (by simp)
      ((List.pairwise_lt_range _).imp Nat.ne_of_lt)
  simp only [heq]
  have hsum1 : sumValues c1 = some (1024 - r1) := by
    rw [hsum]
    simp [sumValues, jsAdd]
  by_cases hr : 0 < r1
  · rw [if_pos (by simp [jsGtZero, hr])]
    have hfreshlast : padStart (binString (min (2 ^ n) 16 - 1)) n ∉
        c1.map Prod.fst := by
      rw [hkeys]
      simp only [List.map_nil, List.nil_append]
      intro hmem
      obtain ⟨i, hi, hkey⟩ := List.mem_map.mp hmem
      have := padStart_binString_injective n hkey
      have := List.mem_range.mp hi
      omega
    rw [setCount_eq_append _ hfreshlast, sumValues_append_single, hsum1]
    simp only [jsAdd]
    congr 1
    omega
  · rw [if_neg (by simp [jsGtZero]; omega)]
    rw [hsum1]
    congr 1
    omega

/-- The Bell-state counts are independent of the qubit count and sum
exactly. -/
lemma sum_bell (n : ℕ) :
    sumValues (synthCounts "bell_state" n) = some 1024 := by
  rw [synthCounts_bell]
  rfl

lemma sum_ghz {n : ℕ} (hn : 1 ≤ n) :
    sumValues (synthCounts "ghz_state" n) = some 1024 := by
  rw [synthCounts_ghz hn]
  rfl

/-! ## Key shape, branch by branch -/

/-- The unrecognized-type loop appends exactly the zero-padded binary keys,
whatever the character code (`NaN` included). -/
lemma default_loop_keys (n : ℕ) (code : JsNum) :
    ∀ (is : List ℕ) (c0 : List (String × JsNum)) (r0 : JsNum),
      (∀ i ∈ is, padStart (binString i) n ∉ c0.map Prod.fst) →
      is.Pairwise (· ≠ ·) →
      ((is.foldl (defaultStep n code) (c0, r0)).1).map Prod.fst =
        c0.map Prod.fst ++ is.map (fun i => padStart (binString i) n) := by
  intro is
  induction is with
  | nil => intro c0 r0 _ _; simp
  | cons i rest ih =>
    intro c0 r0 hfresh hpw
    obtain ⟨hhead, htail⟩ := List.pairwise_cons.mp hpw
    rw [List.foldl_cons]
    obtain ⟨v, w, hsw⟩ : ∃ v w, defaultStep n code (c0, r0) i =
        (setCount c0 (padStart (binString i) n) v, w) := ⟨_, _, rfl⟩
    rw [hsw, setCount_eq_append _ (hfresh i (by simp))]
    have hfresh' : ∀ j ∈ rest, padStart (binString j) n ∉
        (c0 ++ [(padStart (binString i) n, v)]).map Prod.fst := by
      intro j hj
      rw [List.map_append]
      intro hmem
      rcases List.mem_append.mp hmem with hc | hc
      · exact hfresh j (List.mem_cons_of_mem _ hj) hc
      · simp only [List.map_cons, List.map_nil, List.mem_singleton] at hc
        exact hhead j hj (padStart_binString_injective n hc).symm
    rw [ih _ w hfresh' htail, List.map_append, List.append_assoc]
    rfl

lemma length_repeatChar (c : Char) (n : ℕ) : (repeatChar c n).length = n := by
  show (List.replicate n c).length = n
  exact List.length_replicate n c

lemma min_pow_ge_two {n : ℕ} (hn : 1 ≤ n) : 2 ≤ min (2 ^ n) 16 := by
  have h2 : 2 ≤ 2 ^ n := by
    calc 2 = 2 ^ 1 := rfl
      _ ≤ 2 ^ n := Nat.pow_le_pow_right (by norm_num) hn
  exact le_min h2 (by norm_num)

lemma shape_default {ct : String} {n : ℕ} (hn : 1 ≤ n)
    (h1 : ct ≠ "bell_state") (h2 : ct ≠ "ghz_state") (h3 : ct ≠ "w_state") :
    (∀ p ∈ synthCounts ct n, p.1.length = n) ∧
      (synthCounts ct n).length ≤ min (2 ^ n) 16 := by
  rw [synthCounts_default ct n h1 h2 h3]
  simp only
  set M := min (2 ^ n) 16 with hM
  have hM2 : 2 ≤ M := min_pow_ge_two hn
  have hMle : M ≤ 2 ^ n := min_le_left _ _
  set loop := (List.range (M - 1)).foldl (defaultStep n (charCodeAt0 ct))
    ([], some 1024) with hloop
  have hkeys : (loop.1).map Prod.fst =
      (List.range (M - 1)).map (fun i => padStart (binString i) n) := by
    have := default_loop_keys n (charCodeAt0 ct) (List.range (M - 1)) []
      (some 1024) (by simp) ((List.pairwise_lt_range _).imp Nat.ne_of_lt)
    simpa using this
  have hlen1 : loop.1.length = M - 1 := by
    have := congrArg List.length hkeys
    simpa using this
  have hmem1 : ∀ p ∈ loop.1, p.1.length = n := by
    intro p hp
    have : p.1 ∈ (loop.1).map Prod.fst := List.mem_map_of_mem _ hp
    rw [hkeys] at this
    obtain ⟨i, hi, hkey⟩ := List.mem_map.mp this
    have hir := List.mem_range.mp hi
    rw [← hkey]
    exact length_padStart_binString hn (by omega)
  by_cases hgt : jsGtZero loop.2 = true
  · rw [if_pos hgt]
    have hfreshlast : padStart (binString (M - 1)) n ∉ loop.1.map Prod.fst := by
      rw [hkeys]
      intro hmem
      obtain ⟨i, hi, hkey⟩ := List.mem_map.mp hmem
      have := padStart_binString_injective n hkey
      have := List.mem_range.mp hi
      omega
    rw [setCount_eq_append _ hfreshlast]
    constructor
    · intro p hp
      rcases List.mem_append.mp hp with hp1 | hp2
      · exact hmem1 p hp1
      · simp only [List.mem_singleton] at hp2
        rw [hp2]
        exact length_padStart_binString hn (by omega)
    · rw [List.length_append, hlen1]
      simp only [List.length_singleton]
      omega
  · rw [if_neg hgt]
    exact ⟨hmem1, by omega⟩

lemma shape_bell {n : ℕ} (hn : 1 ≤ n) :
    (∀ p ∈ synthCounts "bell_state" n, p.1.length = 2) ∧
      (synthCounts "bell_state" n).length ≤ min (2 ^ n) 16 := by
  rw [synthCounts_bell]
  refine ⟨by decide, ?_⟩
  have := min_pow_ge_two hn
  simpa using this

lemma shape_ghz {n : ℕ} (hn : 1 ≤ n) :
    (∀ p ∈ synthCounts "ghz_state" n, p.1.length = n) ∧
      (synthCounts "ghz_state" n).length ≤ min (2 ^ n) 16 := by
  rw [synthCounts_ghz hn]
  constructor
  · intro p hp
    rcases List.mem_cons.mp hp with h | h
    · rw [h]; exact length_repeatChar '0' n
    · simp only [List.mem_singleton] at h
      rw [h]; exact length_repeatChar '1' n
  · have := min_pow_ge_two hn
    simpa using this

lemma shape_w {n : ℕ} (hn : 1 ≤ n) :
    (∀ p ∈ synthCounts "w_state" n, p.1.length = n) ∧
      (synthCounts "w_state" n).length = n := by
  rw [synthCounts_w_closed hn]
  constructor
  · intro p hp
    rcases List.mem_append.mp hp with h | h
    · obtain ⟨i, _, hpi⟩ := List.mem_map.mp h
      rw [← hpi]
      exact oneHot_length n i
    · simp only [List.mem_singleton] at h
      rw [h]
      exact oneHot_length n (n - 1)
  · rw [List.length_append, List.length_map, List.length_range]
    simp only [List.length_singleton]
    omega

/-- Character `j` of the `w_state` outcome string `oneHot n i`:
`'1'` exactly at `j = i`. -/
lemma oneHot_data_getElem {n i j : ℕ} (hi : i < n) (hj : j < n) :
    (oneHot n i).data[j]? = some (if j = i then '1' else '0') := by
  show ((List.replicate n '0').set i '1')[j]? = _
  by_cases h : i = j
  · subst h
    rw [List.getElem?_set_self (by rw [List.length_replicate]; exact hi)]
    simp
  · rw [List.getElem?_set_ne h, List.getElem?_replicate, if_pos hj,
      if_neg (fun hji => h hji.symm)]

/-! ## Claims about the Measurement Distribution Synthesizer -/

/-- C4 counterexample: for the empty `circuitType` — a string, qubitCount
1 ≥ 1, totalShots 1024 — conservation fails: `''.charCodeAt(0)` is `NaN`,
the per-outcome count becomes `NaN`, and the sum of `counts.values()` is
`NaN`, not 1024. -/
theorem C4_counterexample :
    sumValues (synthesize "" 1).counts = none ∧
      sumValues (synthesize "" 1).counts ≠ some 1024 :=
  ⟨rfl, by decide⟩

/-- C4 (amended): for every **non-empty** `circuitType`, every
qubitCount ≥ 1 and totalShots = 1024, the synthesized table satisfies
`sum(counts.values()) = 1024` exactly, in every branch (bell, ghz, w and
the unrecognized-type branch with its clamping and leftover assignment);
counts live in `ℕ`, so every count is non-negative, and a `some` sum
entails that no count is `NaN`. -/
theorem C4_conservation (ct : String) (n : ℕ) (hct : ct ≠ "")
    (hn : 1 ≤ n) : sumValues (synthesize ct n).counts = some 1024 := by
  have hc : (synthesize ct n).counts = synthCounts ct n := rfl
  rw [hc]
  by_cases h1 : ct = "bell_state"
  · subst h1
    exact sum_bell n
  by_cases h2 : ct = "ghz_state"
  · subst h2
    exact sum_ghz hn
  by_cases h3 : ct = "w_state"
  · subst h3
    exact sum_w hn
  exact sum_default hct h1 h2 h3

theorem C4_conservation_witness :
    ("grover" : String) ≠ "" ∧ 1 ≤ 3 ∧
      sumValues (synthesize "grover" 3).counts = some 1024 :=
  ⟨by decide, by decide, C4_conservation "grover" 3 (by decide) (by decide)⟩

/-- C5: `synthesize("bell_state", 2, 1024)` produces exactly
`{"00": 491, "11": 533}` (`floor(1024 × 0.48) = 491`, remainder 533) and
`probabilities["00"] = 491/1024 ≈ 0.4795`. -/
theorem C5_bell_example :
    (synthesize "bell_state" 2).counts =
        [("00", some 491), ("11", some 533)] ∧
      (synthesize "bell_state" 2).probabilities =
        [("00", some ((491 : ℚ) / 1024)), ("11", some ((533 : ℚ) / 1024))] ∧
      |(491 : ℚ) / 1024 - 4795 / 10000| < 1 / 10000 := by
  refine ⟨rfl, ?_, ?_⟩
  · have hp : (synthesize "bell_state" 2).probabilities =
        [("00", some (((491 : ℕ) : ℚ) / ((1024 : ℕ) : ℚ))),
          ("11", some (((533 : ℕ) : ℚ) / ((1024 : ℕ) : ℚ)))] := rfl
    rw [hp]
    norm_num
  · have h : (491 : ℚ) / 1024 - 4795 / 10000 = -(1 / 128000) := by norm_num
    rw [h, abs_neg, abs_of_pos (by norm_num : (0 : ℚ) < 1 / 128000)]
    norm_num

/-- C6 counterexample: the claim's concrete example pairs the outcomes
`"001", "010", "100"` with the counts `341, 341, 342` in that order; on the
code the loop's *first* outcome puts the `1` at left index 0, so `"100"`
and `"010"` get `floor(1024/3) = 341` and the *last* outcome `"001"` gets
the remainder 342 — the opposite pairing. -/
theorem C6_counterexample :
    getCount (synthesize "w_state" 3).counts "001" = some 342 ∧
      getCount (synthesize "w_state" 3).counts "100" = some 341 ∧
      (342 : ℕ) ≠ 341 := by
  refine ⟨rfl, rfl, by decide⟩

/-- C6 (amended): for qubitCount n ≥ 1 and totalShots = 1024,
`synthesize("w_state", n, 1024)` produces exactly n outcomes, the i-th
(loop order, i = 0 … n−1) being the length-n bitstring with its single `1`
at left-based index i; each of the first n−1 outcomes gets
`floor(1024/n)` and the last loop outcome — `"0…01"` — gets the
remainder; in particular for n = 3 the table is
`{"100": 341, "010": 341, "001": 342}`. -/
theorem C6_w_state_policy (n : ℕ) (hn : 1 ≤ n) :
    (synthesize "w_state" n).counts =
        (List.range (n - 1)).map (fun i => (oneHot n i, some (1024 / n))) ++
          [(oneHot n (n - 1), some (1024 - (n - 1) * (1024 / n)))] ∧
      (∀ i j, i < n → j < n →
        (oneHot n i).data[j]? = some (if j = i then '1' else '0')) ∧
      (synthesize "w_state" 3).counts =
        [("100", some 341), ("010", some 341), ("001", some 342)] :=
  ⟨synthCounts_w_closed hn,
    fun _ _ hi hj => oneHot_data_getElem hi hj, by decide⟩

theorem C6_w_state_policy_witness :
    1 ≤ 3 ∧ (synthesize "w_state" 3).counts =
      (List.range 2).map (fun i => (oneHot 3 i, some (1024 / 3))) ++
        [(oneHot 3 2, some (1024 - 2 * (1024 / 3)))] :=
  ⟨by decide, (C6_w_state_policy 3 (by decide)).1⟩

/-- C7 counterexample: a qubitCount of −1 (< 1) is truthy in JS, so the
`||`-fallback chain passes it through unchanged — the caller does *not*
fall back to 3, and no `InvalidInput` error exists anywhere in the code. -/
theorem C7_counterexample :
    resolveNumQubits (some (-1)) none = -1 ∧ (-1 : ℤ) < 1 ∧
      (-1 : ℤ) ≠ 3 :=
  ⟨rfl, by decide, by decide⟩

/-- C7 (amended): the code raises no `InvalidInput` error; the qubit count
is resolved by JS falsy-defaulting: an absent or zero `num_qubits` (and
absent/zero `parameters.num_qubits`) falls back to 3, while every non-zero
value — negative values included — passes through unchanged. -/
theorem C7_fallback (n : ℤ) (b : Option ℤ) (hb : n ≠ 0) :
    resolveNumQubits none none = 3 ∧ resolveNumQubits (some 0) none = 3 ∧
      resolveNumQubits (some 0) (some 0) = 3 ∧
      resolveNumQubits (some n) b = n := by
  refine ⟨rfl, rfl, rfl, ?_⟩
  simp [resolveNumQubits, hb]

theorem C7_fallback_witness :
    (-1 : ℤ) ≠ 0 ∧ resolveNumQubits (some (-1)) none = -1 :=
  ⟨by decide, (C7_fallback (-1) none (by decide)).2.2.2⟩

/-- C8: the Synthesizer is a pure function of
`(circuitType, qubitCount, totalShots)` — no randomness, no external
calls — so identical inputs produce identical tables (counts, totalShots
and probabilities alike). -/
theorem C8_determinism (ct1 ct2 : String) (n1 n2 : ℕ)
    (hct : ct1 = ct2) (hn : n1 = n2) :
    synthesize ct1 n1 = synthesize ct2 n2 := by
  rw [hct, hn]

theorem C8_determinism_witness :
    ("bell_state" : String) = "bell_state" ∧ (2 : ℕ) = 2 ∧
      synthesize "bell_state" 2 = synthesize "bell_state" 2 :=
  ⟨rfl, rfl, C8_determinism "bell_state" "bell_state" 2 2 rfl rfl⟩

/-- C9 counterexample: the bell branch writes the fixed keys `"00"`/`"11"`
whatever the qubitCount, so at qubitCount 3 its outcome `"00"` has length
2 ≠ 3; and `w_state` at qubitCount 17 yields 17 distinct outcomes,
exceeding `min(2^17, 16) = 16`. -/
theorem C9_counterexample :
    getCount (synthesize "bell_state" 3).counts "00" = some 491 ∧
      ("00" : String).length = 2 ∧ (2 : ℕ) ≠ 3 ∧
      (synthesize "w_state" 17).counts.length = 17 ∧
      min (2 ^ 17) 16 = 16 ∧ 16 < 17 := by
  refine ⟨rfl, rfl, by decide, by decide, by norm_num, by decide⟩

/-- C9 (amended): for every circuitType and qubitCount n ≥ 1, every
outcome key has length n in the ghz/w/unrecognized branches while the
bell branch always uses length-2 keys; the number of outcomes is at most
`min(2^n, 16)` except in the `w_state` branch, which produces exactly n
(and can therefore exceed 16). -/
theorem C9_outcome_shape (ct : String) (n : ℕ) (hn : 1 ≤ n) :
    (∀ p ∈ (synthesize ct n).counts,
        p.1.length = if ct = "bell_state" then 2 else n) ∧
      (synthesize ct n).counts.length ≤
        (if ct = "w_state" then n else min (2 ^ n) 16) := by
  have hc : (synthesize ct n).counts = synthCounts ct n := rfl
  rw [hc]
  by_cases h1 : ct = "bell_state"
  · subst h1
    rw [if_pos rfl, if_neg (by decide)]
    exact shape_bell hn
  by_cases h3 : ct = "w_state"
  · subst h3
    rw [if_neg (by decide), if_pos rfl]
    exact ⟨(shape_w hn).1, le_of_eq (shape_w hn).2⟩
  by_cases h2 : ct = "ghz_state"
  · subst h2
    rw [if_neg (by decide), if_neg (by decide)]
    exact shape_ghz hn
  · rw [if_neg h1, if_neg h3]
    exact shape_default hn h1 h2 h3

theorem C9_outcome_shape_witness :
    1 ≤ 2 ∧
      (∀ p ∈ (synthesize "ghz_state" 2).counts,
        p.1.length = if ("ghz_state" : String) = "bell_state" then 2 else 2) ∧
      (synthesize "ghz_state" 2).counts.length ≤
        (if ("ghz_state" : String) = "w_state" then 2 else min (2 ^ 2) 16) :=
  ⟨by decide, (C9_outcome_shape "ghz_state" 2 (by decide)).1,
    (C9_outcome_shape "ghz_state" 2 (by decide)).2⟩

/-! ## Claims about the Generation Lifecycle Orchestrator -/

lemma setGenOf_fields (s : OrchState) (c : Channel) (b : Bool) :
    (setGenOf s c b).circuitData = s.circuitData ∧
      (setGenOf s c b).pendingData = s.pendingData ∧
      (setGenOf s c b).simulationResults = s.simulationResults ∧
      (setGenOf s c b).showResults = s.showResults ∧
      (setGenOf s c b).timers = s.timers ∧
      (setGenOf s c b).error = s.error := by
  cases c <;> simp [setGenOf]

/-- A user flow reaching the C1 violation: generate successfully on the
text channel (commit), then start a second attempt on the same channel
and let it fail. -/
def gateTrace : List Event :=
  [Event.startGeneration Channel.text,
   Event.generated Channel.text ⟨1⟩,
   Event.settle,
   Event.startGeneration Channel.text,
   Event.generationFailed Channel.text "service unavailable"]

/-- C1 counterexample: after a commit, a failed second attempt leaves the
committed artifact in place (`circuitData` is never cleared) with no
channel generating, yet the Result Views are absent because
`showResults` stayed `false` — refuting the "if" direction of the gating
biconditional. -/
theorem C1_counterexample :
    (run init gateTrace).circuitData = some ⟨1⟩ ∧
      isGenerating (run init gateTrace) = false ∧
      resultViewsShown (run init gateTrace) = false := by
  refine ⟨rfl, rfl, rfl⟩

/-- C1 (amended): the Result Views render iff `circuitData` is present,
`showResults` is set *and* no channel is generating, so they are never
shown without a committed artifact or while a channel is in flight
(only-if direction), and a firing settle callback commits the pending
slot and reveals them — immediately shown when the slot is non-empty and
no other channel is generating; but a committed artifact can coexist with
hidden views (`showResults = false`), so the claim's "if" direction
fails. -/
theorem C1_gating (s : OrchState) :
    (resultViewsShown s = true →
      s.circuitData.isSome = true ∧ isGenerating s = false ∧
        s.showResults = true) ∧
      (∀ c rest, s.timers = c :: rest →
        (fireSettle s).showResults = true ∧
          (fireSettle s).circuitData = s.pendingData) ∧
      (∀ c rest, s.timers = c :: rest → s.pendingData.isSome = true →
        isGenerating (fireSettle s) = false →
        resultViewsShown (fireSettle s) = true) := by
  refine ⟨?_, ?_, ?_⟩
  · intro h
    simp only [resultViewsShown, Bool.and_eq_true, Bool.not_eq_true'] at h
    exact ⟨h.1.1, h.2, h.1.2⟩
  · intro c rest ht
    unfold fireSettle
    rw [ht]
    obtain ⟨h1, h2, _, h4, _, _⟩ := setGenOf_fields
      { s with simulationResults := none, circuitData := s.pendingData,
               error := none, showResults := true, timers := rest } c false
    exact ⟨h4, h1⟩
  · intro c rest ht hpend hgen
    have hs : (fireSettle s).showResults = true ∧
        (fireSettle s).circuitData = s.pendingData := by
      unfold fireSettle
      rw [ht]
      obtain ⟨h1, _, _, h4, _, _⟩ := setGenOf_fields
        { s with simulationResults := none, circuitData := s.pendingData,
                 error := none, showResults := true, timers := rest } c false
      exact ⟨h4, h1⟩
    simp only [resultViewsShown, hs.1, hs.2, hpend, hgen]
    rfl

theorem C1_gating_witness :
    (fireSettle (run init [Event.startGeneration Channel.text,
        Event.generated Channel.text ⟨1⟩])).showResults = true ∧
      resultViewsShown (fireSettle (run init [Event.startGeneration
        Channel.text, Event.generated Channel.text ⟨1⟩])) = true :=
  ⟨((C1_gating _).2.1 Channel.text [] (by decide)).1,
    (C1_gating _).2.2 Channel.text [] (by decide) (by decide) (by decide)⟩

/-- Handler sequence realizing the stale-response overwrite: A (text)
starts; the user switches to the template tab (reset) and generates
there; B commits; then A's late success response arrives and, 500 ms
later, its own settle callback commits the stale artifact.  Every
`generated`/`settle` event corresponds to an actually outstanding
request/timeout of this sequence. -/
def staleTrace : List Event :=
  [Event.startGeneration Channel.text,
   Event.selectTab Channel.template,
   Event.startGeneration Channel.template,
   Event.generated Channel.template ⟨2⟩,
   Event.settle,
   Event.generated Channel.text ⟨1⟩,
   Event.settle]

/-- C2 counterexample: after B's artifact `⟨2⟩` commits, A's stale
response `⟨1⟩` is freshly staged and commits after its settle delay —
the final committed artifact is A's, not B's.  There is no per-attempt
session token; only resets/tab switches null the single pending slot. -/
theorem C2_counterexample :
    (run init staleTrace).circuitData = some ⟨1⟩ ∧
      (run init staleTrace).timers = [] ∧
      (⟨1⟩ : Artifact) ≠ (⟨2⟩ : Artifact) := by
  refine ⟨rfl, rfl, by decide⟩

lemma step_preserves_not_staged {s : OrchState} {a : Artifact}
    (h1 : s.pendingData ≠ some a) (h2 : s.circuitData ≠ some a)
    (e : Event) (he : ∀ c, e ≠ Event.generated c a) :
    (step s e).pendingData ≠ some a ∧ (step s e).circuitData ≠ some a := by
  cases e with
  | selectTab c =>
    simp only [step, selectTab]
    by_cases hc : c ≠ s.activeTab
    · rw [if_pos hc]
      simp [tabEffect, handleResetCircuit]
    · rw [if_neg hc]
      simp [handleResetCircuit]
  | startGeneration c =>
    simp only [step, handleStartGeneration]
    obtain ⟨hc1, hc2, _, _, _, _⟩ := setGenOf_fields s c true
    constructor
    · show (setGenOf s c true).pendingData ≠ some a
      rw [hc2]; exact h1
    · show (setGenOf s c true).circuitData ≠ some a
      rw [hc1]; exact h2
  | generated c b =>
    have hb : b ≠ a := by
      intro hba
      exact absurd (congrArg (Event.generated c) hba) (he c)
    simp only [step, handleGenerated]
    exact ⟨by simpa using hb, h2⟩
  | generationFailed c msg =>
    simp only [step, handleGenerationFailed]
    obtain ⟨hc1, hc2, _, _, _, _⟩ := setGenOf_fields s c false
    exact ⟨by simpa [hc2] using h1, by simpa [hc1] using h2⟩
  | resetCircuit =>
    simp [step, handleResetCircuit]
  | settle =>
    simp only [step]
    unfold fireSettle
    cases ht : s.timers with
    | nil => exact ⟨h1, h2⟩
    | cons c rest =>
      obtain ⟨hc1, hc2, _, _, _, _⟩ := setGenOf_fields
        { s with simulationResults := none, circuitData := s.pendingData,
                 error := none, showResults := true, timers := rest } c false
      exact ⟨by simpa [hc2] using h1, by simpa [hc1] using h1⟩
  | runSimulation t =>
    simp only [step, runSimulation]
    by_cases hc : s.circuitData.isSome
    · rw [if_pos hc]
      exact ⟨h1, h2⟩
    · rw [if_neg hc]
      exact ⟨h1, h2⟩

/-- C2 (amended): once the pending slot and the committed slot no longer
hold artifact `a` — which is exactly the state `handleResetCircuit` or a
tab switch leaves behind, discarding whatever was staged — no subsequent
handler sequence commits `a` unless some `onGenerated` *re-stages* `a`;
in particular a staged artifact wiped by a reset before its settle delay
fires is never committed.  (The unrestricted claim fails: a stale
response re-stages its artifact and does commit — see the
counterexample.) -/
theorem C2_race_discard (s : OrchState) (tail : List Event) (a : Artifact)
    (h1 : s.pendingData ≠ some a) (h2 : s.circuitData ≠ some a)
    (h3 : ∀ c, Event.generated c a ∉ tail) :
    (run s tail).circuitData ≠ some a ∧
      (run s tail).pendingData ≠ some a := by
  induction tail generalizing s with
  | nil => exact ⟨h2, h1⟩
  | cons e rest ih =>
    have hrun : run s (e :: rest) = run (step s e) rest := rfl
    rw [hrun]
    have hnot : ∀ c, e ≠ Event.generated c a := by
      intro c hec
      exact h3 c (hec ▸ List.mem_cons_self e rest)
    obtain ⟨hp, hc⟩ := step_preserves_not_staged h1 h2 e hnot
    exact ih (step s e) hp hc (fun c hmem => h3 c (List.mem_cons_of_mem _ hmem))

theorem C2_race_discard_witness :
    (run (handleResetCircuit (run init [Event.startGeneration Channel.text,
        Event.generated Channel.text ⟨5⟩])) [Event.settle]).circuitData ≠
      some ⟨5⟩ :=
  (C2_race_discard _ [Event.settle] ⟨5⟩ (by decide) (by decide)
    (by intro c; cases c <;> decide)).1

/-- User flow for the C3 counterexample: commit an artifact, run the
simulation, then start a new generation attempt on the text channel. -/
def startAfterCommitTrace : List Event :=
  [Event.startGeneration Channel.text,
   Event.generated Channel.text ⟨7⟩,
   Event.settle,
   Event.runSimulation 5,
   Event.startGeneration Channel.text]

/-- C3 counterexample: after `onStartGeneration(text)` the previously
committed artifact `⟨7⟩` is still in orchestrator state — `circuitData`
is *not* cleared, the views are merely hidden via `showResults := false`
(the measurement table is cleared). -/
theorem C3_counterexample :
    (run init startAfterCommitTrace).circuitData = some ⟨7⟩ ∧
      (run init startAfterCommitTrace).isNaturalLanguageGenerating = true ∧
      (run init startAfterCommitTrace).simulationResults = none ∧
      (run init startAfterCommitTrace).showResults = false := by
  refine ⟨rfl, rfl, rfl, rfl⟩

/-- C3 (amended): `onStartGeneration(channel)` marks the channel
Generating, immediately clears the measurement table and hides the
Result Views (`showResults := false`), but leaves the previously
committed artifact (and the pending slot) untouched — the old artifact
is hidden, not cleared. -/
theorem C3_start_generation (s : OrchState) (c : Channel) :
    isGenOf (step s (Event.startGeneration c)) c = true ∧
      (step s (Event.startGeneration c)).simulationResults = none ∧
      (step s (Event.startGeneration c)).showResults = false ∧
      (step s (Event.startGeneration c)).circuitData = s.circuitData ∧
      (step s (Event.startGeneration c)).pendingData = s.pendingData := by
  cases c <;> simp [step, handleStartGeneration, isGenOf, setGenOf]

/-! ## Claim about the Diagram Scaling Helper -/

/-- C10: for positive dimensions the computed zoom is exactly
`min(1, containerWidth / intrinsicWidth)` — never above 100%, equal to 1
when the diagram fits, shrunk to the width ratio when it is wider —
"fit to container" reapplies exactly the computed value, and applying it
twice equals applying it once. -/
theorem C10_scaling (iw cw : ℚ) (z : ZoomState) (hiw : 0 < iw)
    (hcw : 0 < cw) :
    computeOptimalZoom iw cw = min 1 (cw / iw) ∧
      computeOptimalZoom iw cw ≤ 1 ∧
      (iw ≤ cw → computeOptimalZoom iw cw = 1) ∧
      (cw < iw → computeOptimalZoom iw cw = cw / iw) ∧
      (handleFitToContainer (applyDimensions iw cw z)).zoomLevel =
        computeOptimalZoom iw cw ∧
      handleFitToContainer (handleFitToContainer z) =
        handleFitToContainer z := by
  refine ⟨?_, ?_, ?_, ?_, ?_, rfl⟩
  · unfold computeOptimalZoom
    by_cases h : cw / iw < 1
    · rw [if_pos h, min_eq_right h.le]
    · rw [if_neg h, min_eq_left (le_of_not_lt h)]
  · unfold computeOptimalZoom
    by_cases h : cw / iw < 1
    · rw [if_pos h]; exact h.le
    · rw [if_neg h]
  · intro hle
    unfold computeOptimalZoom
    rw [if_neg (not_lt.mpr ((one_le_div hiw).mpr hle))]
  · intro hlt
    unfold computeOptimalZoom
    rw [if_pos ((div_lt_one hiw).mpr hlt)]
  · unfold applyDimensions
    rw [if_pos ⟨hiw, hcw⟩]
    rfl

theorem C10_scaling_witness :
    (0 : ℚ) < 200 ∧ (0 : ℚ) < 100 ∧
      computeOptimalZoom 200 100 = min 1 (100 / 200) ∧
      handleFitToContainer (handleFitToContainer ⟨1, 1⟩) =
        handleFitToContainer (⟨1, 1⟩ : ZoomState) :=
  ⟨by norm_num, by norm_num,
    (C10_scaling 200 100 ⟨1, 1⟩ (by norm_num) (by norm_num)).1,
    (C10_scaling 200 100 ⟨1, 1⟩ (by norm_num) (by norm_num)).2.2.2.2.2⟩
